import Mathlib

/-!
pkpindex: crawl loop, cache layout and endpoint derivation

A shallow embedding of `extra/pkpindex/pkpindex.go`.

* Go strings are embedded as Lean `String`s (the byte strings of the
  program are taken to be UTF-8 text); the library functions the program
  calls (`strings.TrimSpace`, `strings.HasSuffix`, the regular
  expression `/index$`, `fmt.Sprintf("%06d")`, `http.Header.Get`) are
  embedded by small executable definitions.
* The external `pup` command, the upstream HTTP server and the outcome of
  file writes are parameters.
* The crawl loop of `main` is embedded as a step function `wrapFunc` on an
  explicit state which, next to the two program variables `id` and
  `subsequentRefreshes`, carries the cache directory and a trace of the
  effects (paths inspected, requests issued, sleeps, fatal exit).
-/

namespace Pkpindex

/-! ## Strings -/

/-- Go `unicode.IsSpace`: the white space property of Unicode. -/
def isSpace (c : Char) : Bool :=
  let n := c.toNat
  n == 0x09 || n == 0x0A || n == 0x0B || n == 0x0C || n == 0x0D || n == 0x20 ||
  n == 0x85 || n == 0xA0 || n == 0x1680 || (0x2000 ≤ n && n ≤ 0x200A) ||
  n == 0x2028 || n == 0x2029 || n == 0x202F || n == 0x205F || n == 0x3000

/-- Go `strings.TrimSpace`: remove all leading and trailing white space. -/
def trimSpace (s : String) : String :=
  String.mk ((s.data.dropWhile isSpace).reverse.dropWhile isSpace).reverse

/-- Go `strings.HasSuffix`:
`len(s) >= len(suffix) && s[len(s)-len(suffix):] == suffix`. -/
def hasSuffix (s suffix : String) : Bool :=
  decide (suffix.length ≤ s.length) &&
    (s.data.drop (s.length - suffix.length) == suffix.data)

/-- The call `re.ReplaceAllString(src, repl)` for `re = /index$` (line 129
and 133), on character lists.  The expression is the literal `/index`
followed by end of text, so scanning from the left a match starts exactly
where the remaining text is `/index`; the match is replaced by `repl` and
consumes the rest of the text.  Every other character is copied. -/
def replaceIndexAtEnd (repl : List Char) : List Char → List Char
  | [] => []
  | c :: cs =>
    if c :: cs = ['/', 'i', 'n', 'd', 'e', 'x'] then repl
    else c :: replaceIndexAtEnd repl cs

/-- The call `re.ReplaceAllString(homepage, "/oai")` with `re = /index$`. -/
def reReplaceAllString (src repl : String) : String :=
  String.mk (replaceIndexAtEnd repl.data src.data)

/-! ## HTML field extractor -/

/-- JournalInfo gathers journal name and endpoint. -/
structure JournalInfo where
  Name : String
  Homepage : String
  Endpoint : String
  deriving DecidableEq, Repr

/-- The external `pup` command: given the selector and the text on standard
input, either the command fails (`none`) or it exits successfully having
written `some out` to the combined standard output and error buffer. -/
abbrev Pup := String → String → Option String

/-- Source `runPup` (lines 103-118). -/
def runPup (pup : Pup) (html : String) (selector : String) : String :=
  let html := trimSpace html
  if html.length == 0 then ""
  else
    match pup selector html with
    | none => ""
    | some buf => trimSpace buf

/-- The `switch` of `extractJournalInfo` (lines 129-138), which computes the
endpoint from the homepage. -/
def endpoint (homepage : String) : String :=
  if hasSuffix homepage "/index" then reReplaceAllString homepage "/oai"
  else if hasSuffix homepage "/" then homepage ++ "oai"
  else homepage ++ "/oai"

/-- Source `extractJournalInfo` (lines 121-144); the returned error is
always nil. -/
def extractJournalInfo (pup : Pup) (html : String) : JournalInfo :=
  let name := runPup pup html "h3 text{}"
  let homepage := runPup pup html "p.archiveLinks > a:nth-child(2) attr{href}"
  { Name := name, Homepage := homepage, Endpoint := endpoint homepage }

/-- Source `extractFromFiles` (lines 147-163), on the contents of the files
(reading a file of the cache is assumed to succeed). -/
def extractFromFiles (pup : Pup) (contents : List String) : List JournalInfo :=
  contents.map (extractJournalInfo pup)

/-! ## Cache layout -/

/-- The verb `%06d` of `fmt.Sprintf` at a non-negative integer: the decimal
digits, padded with zeros on the left to a width of at least six. -/
def sprintf06d (n : Nat) : String :=
  let ds := Nat.toDigits 10 n
  String.mk (List.replicate (6 - ds.length) '0' ++ ds)

/-- The name of the cache file of an id:
`fmt.Sprintf("page-%06d.html", id)` (line 187). -/
def filename (id : Nat) : String :=
  "page-" ++ sprintf06d id ++ ".html"

/-- Go string comparison `a < b` on character lists: lexicographic by code
point (which for UTF-8 text is the byte-wise order Go uses). -/
def lexLt : List Char → List Char → Bool
  | [], [] => false
  | [], _ :: _ => true
  | _ :: _, [] => false
  | a :: as, b :: bs => decide (a.toNat < b.toNat) || (a == b && lexLt as bs)

/-- Go string comparison `a < b`. -/
def strLess (a b : String) : Bool := lexLt a.data b.data

/-- The tagged cache directory `target`: its regular files, each a name
(relative to `target`) with the contents of the file. -/
abbrev Cache := List (String × String)

/-- An `os.Stat(dst)` that succeeds returns the size of the file; `none` is
a non-nil error (the file does not exist). -/
def Cache.stat (c : Cache) (name : String) : Option Nat :=
  (c.lookup name).map String.utf8ByteSize

/-- A successful `WriteFileAtomic(dst, data, 0644)` (lines 265-289): the
temporary file is renamed over `dst`, so afterwards the directory holds
exactly one file of that name, with contents `data`. -/
def WriteFileAtomic (c : Cache) (name data : String) : Cache :=
  (name, data) :: c.filter (fun e => e.1 != name)

/-- Insert a directory entry into a list of entries sorted by name. -/
def insertEntry (e : String × String) : List (String × String) → List (String × String)
  | [] => [e]
  | x :: xs => if strLess x.1 e.1 then x :: insertEntry e xs else e :: x :: xs

/-- The order in which `filepath.Walk(target, ...)` visits the files of the
directory: lexical order of the names.  The directory is flat (the crawl
loop writes no subdirectory), so no descent into subdirectories is
embedded. -/
def walk (c : Cache) : List (String × String) :=
  c.foldr insertEntry []

/-- The extraction pass of `main` (lines 233-253): the walk keeps the files
of non-zero size, `extractFromFiles` turns each into a record. -/
def extractionPass (pup : Pup) (c : Cache) : List JournalInfo :=
  let files := (walk c).filter (fun e => !(e.2.utf8ByteSize == 0))
  extractFromFiles pup (files.map (fun e => e.2))

/-! ## Upstream -/

/-- Go `http.Header`: a map from canonical header names to the list of
values of that header. -/
abbrev Header := List (String × List String)

/-- Upper-case an ASCII lower-case letter. -/
def asciiUpper (c : Char) : Char :=
  if 'a'.toNat ≤ c.toNat ∧ c.toNat ≤ 'z'.toNat then Char.ofNat (c.toNat - 32) else c

/-- Lower-case an ASCII upper-case letter. -/
def asciiLower (c : Char) : Char :=
  if 'A'.toNat ≤ c.toNat ∧ c.toNat ≤ 'Z'.toNat then Char.ofNat (c.toNat + 32) else c

/-- The loop of `textproto.CanonicalMIMEHeaderKey`: the first letter and
every letter after a hyphen is upper-cased, the others are lower-cased. -/
def canonicalize : Bool → List Char → List Char
  | _, [] => []
  | upper, c :: cs =>
    (if upper then asciiUpper c else asciiLower c) :: canonicalize (c == '-') cs

/-- Go `textproto.CanonicalMIMEHeaderKey`, for a key made of letters,
digits and hyphens (as `refresh` is). -/
def canonicalMIMEHeaderKey (key : String) : String :=
  String.mk (canonicalize true key.data)

/-- Go `http.Header.Get`: the first value of the header named `key`, and
the empty string when the header is absent or has no value. -/
def Header.get (h : Header) (key : String) : String :=
  match h.lookup (canonicalMIMEHeaderKey key) with
  | some (v :: _) => v
  | _ => ""

/-- What `client.Get(link)` and the later `ioutil.ReadAll(resp.Body)` give
for one link. -/
structure Response where
  /-- `client.Get` returned a non-nil error. -/
  err : Bool
  StatusCode : Nat
  Header : Header
  /-- The result of `ioutil.ReadAll(resp.Body)`; `none` is a read error. -/
  Body : Option String

/-- The part of the world the crawl loop interacts with.  Every id is
processed at most once in a run, so both are functions of the id. -/
structure World where
  /-- The outcome of `client.Get` on the link
  `<baseURL>/archiveInfo/<id>`. -/
  get : Nat → Response
  /-- `WriteFileAtomic` on the cache file of the id returns an error. -/
  writeFails : Nat → Bool

/-! ## Crawl loop -/

/-- The flags the crawl loop reads (lines 88, 90, 91). -/
structure Config where
  maxID : Int
  force : Bool
  maxSubsequentRefreshes : Int

/-- The state of the crawl loop of `main`: the variables `id` and
`subsequentRefreshes`, the cache directory, and the effects so far. -/
structure State where
  id : Nat
  subsequentRefreshes : Nat
  cache : Cache
  /-- The ids whose cache path was passed to `os.Stat`, in order. -/
  stats : List Nat
  /-- The ids whose link was passed to `client.Get`, in order. -/
  requests : List Nat
  /-- The number of calls of `time.Sleep`. -/
  sleeps : Nat
  /-- The process has exited through `log.Fatal`. -/
  fatal : Bool
  deriving DecidableEq

/-- The state before the first iteration (lines 176-177). -/
def State.init (cache : Cache) : State :=
  { id := 0, subsequentRefreshes := 0, cache := cache, stats := [], requests := [],
    sleeps := 0, fatal := false }

/-- Lines 198-228 of `wrapFunc`: the request for `id` and the handling of
the response; `s` is the state after `os.Stat`. -/
def fetch (w : World) (s : State) : State :=
  let resp := w.get s.id
  let s := { s with requests := s.requests ++ [s.id] }
  if resp.err then { s with fatal := true }
  else if resp.StatusCode ≥ 400 then { s with fatal := true }
  else
    let refresh := resp.Header.get "refresh"
    if refresh != "" then
      if w.writeFails s.id then { s with fatal := true }
      else
        { s with cache := WriteFileAtomic s.cache (filename s.id) "",
                 subsequentRefreshes := s.subsequentRefreshes + 1 }
    else
      let s := { s with subsequentRefreshes := 0 }
      match resp.Body with
      | none => { s with fatal := true }
      | some b =>
        if w.writeFails s.id then { s with fatal := true }
        else
          { s with cache := WriteFileAtomic s.cache (filename s.id) b,
                   sleeps := s.sleeps + 1 }

/-- Source `wrapFunc` (lines 180-229): one iteration of the crawl loop.
After `log.Fatal` the process is gone and nothing happens any more. -/
def wrapFunc (cfg : Config) (w : World) (s : State) : State :=
  if s.fatal then s
  else if (s.subsequentRefreshes : Int) > cfg.maxSubsequentRefreshes then s
  else
    let s := { s with id := s.id + 1 }
    let s := { s with stats := s.stats ++ [s.id] }
    match s.cache.stat (filename s.id) with
    | some size => if size > 0 || !cfg.force then s else fetch w s
    | none => fetch w s

/-- The first `n` iterations of the loop `for i := 0; i < *maxID; i++`
(line 178). -/
def loop (cfg : Config) (w : World) : Nat → State → State
  | 0, s => s
  | n + 1, s => loop cfg w n (wrapFunc cfg w s)

/-- The whole crawl loop (lines 176-231), started on a cache directory. -/
def crawl (cfg : Config) (w : World) (cache : Cache) : State :=
  loop cfg w cfg.maxID.toNat (State.init cache)

/-- Source `main` after the flags are parsed and the directory exists
(lines 174-261): the crawl, and unless the process exited, the records
that are printed, one JSON line each, in this order. -/
def main (cfg : Config) (w : World) (pup : Pup) (cache : Cache) :
    State × Option (List JournalInfo) :=
  let s := crawl cfg w cache
  if s.fatal then (s, none) else (s, some (extractionPass pup s.cache))

/-! ## Auxiliary definitions for the statements -/

/-- The `w` low decimal digits of `n`, most significant first: `n` written
in decimal at the fixed width `w`. -/
def fixedDigits : Nat → Nat → List Char
  | 0, _ => []
  | w + 1, n => fixedDigits w (n / 10) ++ [Nat.digitChar (n % 10)]

/-- The number that a string of decimal digits denotes. -/
def decodeDigits (cs : List Char) : Nat :=
  cs.foldl (fun acc c => acc * 10 + (c.toNat - 48)) 0

/-- The test of line 208 on a response: `resp.Header.Get("refresh") != ""`. -/
def Response.refreshes (r : Response) : Bool := r.Header.get "refresh" != ""

/-- The response to the request for `i` is a soft 404 that the loop records:
no transport error, status below 400, a non-empty refresh value, and the
write of the sentinel succeeds. -/
def World.soft404At (w : World) (i : Nat) : Bool :=
  !(w.get i).err && decide ((w.get i).StatusCode < 400) && (w.get i).refreshes &&
    !w.writeFails i

/-- The response to the request for `i` is a real page with body `b` that
the loop stores: no transport error, status below 400, an empty refresh
value, and reading the body and writing the file succeed. -/
def World.realPageAt (w : World) (i : Nat) (b : String) : Bool :=
  !(w.get i).err && decide ((w.get i).StatusCode < 400) && !(w.get i).refreshes &&
    ((w.get i).Body == some b) && !w.writeFails i

/-- The sentinel files of the `k` ids after `i`, latest first. -/
def sentinels (i k : Nat) : Cache :=
  ((List.range' (i + 1) k).map (fun j => (filename j, ""))).reverse

/-- The state `k` iterations after `s` when each of them requests the next
id, receives a soft 404 and writes a new sentinel file. -/
def State.afterSoft404s (s : State) (k : Nat) : State :=
  { id := s.id + k
    subsequentRefreshes := s.subsequentRefreshes + k
    cache := sentinels s.id k ++ s.cache
    stats := s.stats ++ List.range' (s.id + 1) k
    requests := s.requests ++ List.range' (s.id + 1) k
    sleeps := s.sleeps
    fatal := false }

/-- The state one iteration after `s` when it requests the next id,
receives a real page with body `b` and writes a new cache file. -/
def State.afterRealPage (s : State) (b : String) : State :=
  { id := s.id + 1
    subsequentRefreshes := 0
    cache := (filename (s.id + 1), b) :: s.cache
    stats := s.stats ++ [s.id + 1]
    requests := s.requests ++ [s.id + 1]
    sleeps := s.sleeps + 1
    fatal := false }

/-- A soft 404 as the upstream sends it: status 200 with a refresh header
that points to the start page. -/
def softResponse : Response :=
  { err := false
    StatusCode := 200
    Header := [("Refresh", ["0; url=https://index.pkp.sfu.ca/index.php/browse"])]
    Body := some "" }

/-- A real page: status 200, no refresh header, body `b`. -/
def pageResponse (b : String) : Response :=
  { err := false, StatusCode := 200, Header := [], Body := some b }

/-- An upstream that answers every id with a soft 404; no write fails. -/
def allSoft404 : World :=
  { get := fun _ => softResponse, writeFails := fun _ => false }

/-- The info page of the journal with id 281. -/
def page281 : String :=
  "<h3>Journal of Modern Materials</h3><p class=\"archiveLinks\"><a href=\"/browse\">x</a>" ++
    "<a href=\"https://journals.aijr.in/index.php/jmm/index\">x</a></p>"

/-- An upstream that has a real page for the id 281 only and answers every
other id with a soft 404; no write fails. -/
def onlyPage281 : World :=
  { get := fun i => if i = 281 then pageResponse page281 else softResponse
    writeFails := fun _ => false }

/-- An upstream that has a real page for every id; no write fails. -/
def allPages : World :=
  { get := fun _ => pageResponse "<h3>x</h3>", writeFails := fun _ => false }

/-- The length of the run of soft 404s at the end of a trace of requests:
the number of responses with a refresh value fetched since the most recent
response without one, or since the start if there is none. -/
def streak (w : World) (requests : List Nat) : Nat :=
  (requests.reverse.takeWhile (fun i => (w.get i).refreshes)).length

/-- The cache check of lines 189-197 lets the request for the next id of
`s` go ahead: the file is absent, or it has length zero and the force flag
is on. -/
def needsFetch (cfg : Config) (s : State) : Bool :=
  match s.cache.stat (filename (s.id + 1)) with
  | none => true
  | some size => size == 0 && cfg.force

/-- An upstream that answers every id with status 200, a refresh header
whose value is empty, and a page as body; no write fails. -/
def emptyRefresh : World :=
  { get := fun _ =>
      { err := false, StatusCode := 200, Header := [("Refresh", [""])],
        Body := some "<h3>x</h3>" }
    writeFails := fun _ => false }

/-! ## Lemmas -/

theorem hasSuffix_iff (s suffix : String) :
    hasSuffix s suffix = true ↔ ∃ p : String, s = p ++ suffix := by
  constructor
  · intro h
    simp only [hasSuffix, Bool.and_eq_true, decide_eq_true_eq, beq_iff_eq] at h
    refine ⟨String.mk (s.data.take (s.length - suffix.length)), ?_⟩
    apply String.ext
    rw [String.data_append, ← h.2]
    exact (List.take_append_drop _ _).symm
  · rintro ⟨p, rfl⟩
    have hl : (p ++ suffix).length = p.length + suffix.length := String.length_append p suffix
    simp only [hasSuffix, hl, String.data_append, Bool.and_eq_true, decide_eq_true_eq,
      beq_iff_eq]
    refine ⟨by omega, ?_⟩
    rw [Nat.add_sub_cancel]
    exact List.drop_left' rfl

theorem replaceIndexAtEnd_append (repl p : List Char) :
    replaceIndexAtEnd repl (p ++ ['/', 'i', 'n', 'd', 'e', 'x']) = p ++ repl := by
  induction p with
  | nil => simp [replaceIndexAtEnd]
  | cons c p ih =>
    have hne : ¬ (c :: (p ++ ['/', 'i', 'n', 'd', 'e', 'x']) = ['/', 'i', 'n', 'd', 'e', 'x']) := by
      intro h
      have := congrArg List.length h
      simp at this
    show replaceIndexAtEnd repl (c :: (p ++ ['/', 'i', 'n', 'd', 'e', 'x'])) = c :: (p ++ repl)
    rw [replaceIndexAtEnd, if_neg hne, ih]

theorem endpoint_index (p : String) : endpoint (p ++ "/index") = p ++ "/oai" := by
  have h : hasSuffix (p ++ "/index") "/index" = true := (hasSuffix_iff _ _).2 ⟨p, rfl⟩
  rw [endpoint, if_pos h, reReplaceAllString]
  apply String.ext
  simp only [String.data_append]
  exact replaceIndexAtEnd_append _ _

theorem trimSpace_of_all_space (s : String) (h : s.data.all isSpace = true) :
    trimSpace s = "" := by
  have h1 : s.data.dropWhile isSpace = [] := by
    rw [List.dropWhile_eq_nil_iff]
    simpa using h
  simp [trimSpace, h1]

theorem runPup_of_all_space (pup : Pup) (html selector : String)
    (h : html.data.all isSpace = true) : runPup pup html selector = "" := by
  simp [runPup, trimSpace_of_all_space html h]

theorem digitChar_toNat (m : Nat) (h : m < 10) : (Nat.digitChar m).toNat = 48 + m := by
  interval_cases m <;> rfl

theorem fixedDigits_zero (w : Nat) : fixedDigits w 0 = List.replicate w '0' := by
  induction w with
  | zero => rfl
  | succ w ih =>
    show fixedDigits w (0 / 10) ++ [Nat.digitChar (0 % 10)] = _
    rw [Nat.zero_div, ih, List.replicate_succ']
    rfl

theorem fixedDigits_length (w n : Nat) : (fixedDigits w n).length = w := by
  induction w generalizing n with
  | zero => rfl
  | succ w ih => simp [fixedDigits, ih]

theorem toDigitsCore_pad (fuel : Nat) : ∀ (w n : Nat) (ds : List Char), 0 < w → n < 10 ^ w →
    n < fuel → ∃ k, k + (Nat.toDigitsCore 10 fuel n ds).length = w + ds.length ∧
      List.replicate k '0' ++ Nat.toDigitsCore 10 fuel n ds = fixedDigits w n ++ ds := by
  induction fuel with
  | zero => intro w n ds _ _ h; omega
  | succ fuel ih =>
    intro w n ds hw hn hf
    obtain ⟨w, rfl⟩ : ∃ v, w = v + 1 := ⟨w - 1, by omega⟩
    rw [Nat.toDigitsCore]
    by_cases h0 : n / 10 = 0
    · refine ⟨w, ?_, ?_⟩
      · simp [h0]; omega
      · simp [h0, fixedDigits, fixedDigits_zero]
    · have hw' : 0 < w := by
        rcases Nat.eq_zero_or_pos w with h | h
        · subst h; simp at hn; omega
        · exact h
      have hn' : n / 10 < 10 ^ w := by
        rw [Nat.div_lt_iff_lt_mul (by norm_num)]; rw [pow_succ] at hn; exact hn
      obtain ⟨k, hk1, hk2⟩ := ih w (n / 10) (Nat.digitChar (n % 10) :: ds) hw' hn' (by omega)
      refine ⟨k, ?_, ?_⟩
      · simp only [h0, if_false]; simp at hk1 ⊢; omega
      · simp only [h0, if_false]; rw [hk2]; simp [fixedDigits]

theorem decode_toDigitsCore (fuel : Nat) : ∀ (n : Nat) (ds : List Char), n < fuel →
    (Nat.toDigitsCore 10 fuel n ds).foldl (fun acc c => acc * 10 + (c.toNat - 48)) 0 =
      ds.foldl (fun acc c => acc * 10 + (c.toNat - 48)) n := by
  induction fuel with
  | zero => intro n ds h; omega
  | succ fuel ih =>
    intro n ds hf
    rw [Nat.toDigitsCore]
    have hd : (Nat.digitChar (n % 10)).toNat - 48 = n % 10 := by
      rw [digitChar_toNat _ (Nat.mod_lt _ (by norm_num))]; omega
    by_cases h0 : n / 10 = 0
    · simp only [h0, if_true, List.foldl_cons, hd]
      congr 1; omega
    · simp only [h0, if_false]
      rw [ih _ _ (by omega), List.foldl_cons, hd]
      congr 1; omega

theorem decode_replicate_zero (k : Nat) (ds : List Char) :
    decodeDigits (List.replicate k '0' ++ ds) = decodeDigits ds := by
  induction k with
  | zero => rfl
  | succ k ih =>
    unfold decodeDigits at ih ⊢
    rw [List.replicate_succ, List.cons_append, List.foldl_cons]
    exact ih

theorem sprintf06d_of_lt (n : Nat) (h : n < 10 ^ 6) :
    sprintf06d n = String.mk (fixedDigits 6 n) := by
  obtain ⟨k, hk1, hk2⟩ := toDigitsCore_pad (n + 1) 6 n [] (by norm_num) h (by omega)
  have hk : 6 - (Nat.toDigits 10 n).length = k := by
    simp only [Nat.toDigits]; simp at hk1; omega
  simp only [sprintf06d, hk]
  rw [Nat.toDigits, hk2, List.append_nil]

theorem decode_sprintf06d (n : Nat) : decodeDigits (sprintf06d n).data = n := by
  simp only [sprintf06d]
  rw [decode_replicate_zero, decodeDigits, Nat.toDigits, decode_toDigitsCore _ _ _ (by omega)]
  rfl

theorem sprintf06d_injective {a b : Nat} (h : sprintf06d a = sprintf06d b) : a = b := by
  have := congrArg (fun s => decodeDigits s.data) h
  simpa [decode_sprintf06d] using this

theorem filename_injective {a b : Nat} (h : filename a = filename b) : a = b := by
  apply sprintf06d_injective
  have h1 := congrArg String.data h
  simp only [filename, String.data_append] at h1
  have h2 := List.append_cancel_right h1
  have h3 := List.append_cancel_left h2
  exact String.ext h3

theorem lexLt_append_left (p x y : List Char) : lexLt (p ++ x) (p ++ y) = lexLt x y := by
  induction p with
  | nil => rfl
  | cons c p ih => simp [lexLt, ih]

theorem lexLt_append_of_length_eq : ∀ (x y s t : List Char), x.length = y.length →
    lexLt (x ++ s) (y ++ t) = (lexLt x y || (x == y && lexLt s t))
  | [], [], s, t, _ => by simp [lexLt]
  | [], _ :: _, _, _, h => by simp at h
  | _ :: _, [], _, _, h => by simp at h
  | a :: x, b :: y, s, t, h => by
    have ih := lexLt_append_of_length_eq x y s t (by simpa using h)
    show (decide (a.toNat < b.toNat) || (a == b && lexLt (x ++ s) (y ++ t))) =
      ((decide (a.toNat < b.toNat) || (a == b && lexLt x y)) || ((a :: x == b :: y) && lexLt s t))
    rw [ih]
    by_cases hab : a = b
    · subst hab
      have hxy : (a :: x == a :: y) = (x == y) := by simp
      rw [hxy]
      generalize lexLt x y = L
      generalize (x == y) = E
      generalize lexLt s t = T
      cases L <;> cases E <;> cases T <;> simp
    · have h1 : (a :: x == b :: y) = false := by simp [hab]
      have h2 : (a == b) = false := by simp [hab]
      rw [h1, h2]
      simp

theorem fixedDigits_injective (w : Nat) : ∀ a b, a < 10 ^ w → b < 10 ^ w →
    fixedDigits w a = fixedDigits w b → a = b := by
  induction w with
  | zero => intro a b ha hb _; simp at ha hb; omega
  | succ w ih =>
    intro a b ha hb h
    rw [pow_succ] at ha hb
    simp only [fixedDigits] at h
    have hl : (fixedDigits w (a / 10)).length = (fixedDigits w (b / 10)).length := by
      rw [fixedDigits_length, fixedDigits_length]
    obtain ⟨h1, h2⟩ := List.append_inj h hl
    have e1 := ih _ _ (by omega) (by omega) h1
    have e2 : (Nat.digitChar (a % 10)).toNat = (Nat.digitChar (b % 10)).toNat := by
      simp at h2; rw [h2]
    rw [digitChar_toNat _ (Nat.mod_lt _ (by norm_num)),
      digitChar_toNat _ (Nat.mod_lt _ (by norm_num))] at e2
    omega

theorem lexLt_fixedDigits (w : Nat) : ∀ a b, a < 10 ^ w → b < 10 ^ w →
    lexLt (fixedDigits w a) (fixedDigits w b) = decide (a < b) := by
  induction w with
  | zero => intro a b ha hb; simp at ha hb; subst ha; subst hb; rfl
  | succ w ih =>
    intro a b ha hb
    rw [pow_succ] at ha hb
    simp only [fixedDigits]
    rw [lexLt_append_of_length_eq _ _ _ _ (by rw [fixedDigits_length, fixedDigits_length]),
      ih _ _ (by omega) (by omega)]
    have da := digitChar_toNat (a % 10) (Nat.mod_lt _ (by norm_num))
    have db := digitChar_toNat (b % 10) (Nat.mod_lt _ (by norm_num))
    have key : lexLt [Nat.digitChar (a % 10)] [Nat.digitChar (b % 10)] =
        decide (a % 10 < b % 10) := by
      show (decide ((Nat.digitChar (a % 10)).toNat < (Nat.digitChar (b % 10)).toNat) ||
        (Nat.digitChar (a % 10) == Nat.digitChar (b % 10) && false)) = _
      rw [da, db]
      simp
    rw [key]
    by_cases hq : a / 10 = b / 10
    · have : (fixedDigits w (a / 10) == fixedDigits w (b / 10)) = true := by simp [hq]
      rw [this, Bool.eq_iff_iff]
      simp; omega
    · have hne : (fixedDigits w (a / 10) == fixedDigits w (b / 10)) = false := by
        simp only [beq_eq_false_iff_ne, ne_eq]
        intro h; exact hq (fixedDigits_injective w _ _ (by omega) (by omega) h)
      rw [hne]
      simp; omega

theorem strLess_filename (a b : Nat) (ha : a < 10 ^ 6) (hb : b < 10 ^ 6) :
    strLess (filename a) (filename b) = decide (a < b) := by
  simp only [strLess, filename, String.data_append, sprintf06d_of_lt a ha, sprintf06d_of_lt b hb,
    List.append_assoc]
  rw [lexLt_append_left, lexLt_append_of_length_eq _ _ _ _
    (by rw [fixedDigits_length, fixedDigits_length]), lexLt_fixedDigits 6 a b ha hb]
  have : lexLt ".html".data ".html".data = false := by decide
  simp [this]

theorem wrapFunc_of_fatal (cfg : Config) (w : World) (s : State) (h : s.fatal = true) :
    wrapFunc cfg w s = s := by
  simp [wrapFunc, h]

theorem wrapFunc_of_exceeded (cfg : Config) (w : World) (s : State)
    (h : (s.subsequentRefreshes : Int) > cfg.maxSubsequentRefreshes) :
    wrapFunc cfg w s = s := by
  simp [wrapFunc, h]

theorem loop_of_exceeded (cfg : Config) (w : World) (n : Nat) (s : State)
    (h : (s.subsequentRefreshes : Int) > cfg.maxSubsequentRefreshes) :
    loop cfg w n s = s := by
  induction n with
  | zero => rfl
  | succ n ih => rw [loop, wrapFunc_of_exceeded cfg w s h, ih]

theorem loop_add (cfg : Config) (w : World) (a b : Nat) (s : State) :
    loop cfg w (a + b) s = loop cfg w b (loop cfg w a s) := by
  induction a generalizing s with
  | zero => simp [loop]
  | succ a ih => rw [Nat.succ_add, loop, loop, ih]

theorem loop_succ_right (cfg : Config) (w : World) (n : Nat) (s : State) :
    loop cfg w (n + 1) s = wrapFunc cfg w (loop cfg w n s) := by
  rw [loop_add]; rfl

theorem filter_ne_of_lookup_none (c : Cache) (name : String) (h : c.lookup name = none) :
    c.filter (fun e => e.1 != name) = c := by
  induction c with
  | nil => rfl
  | cons e c ih =>
    obtain ⟨k, v⟩ := e
    rw [List.lookup_cons] at h
    by_cases hk : name = k
    · subst hk; simp at h
    · have hk' : (name == k) = false := by simp [hk]
      rw [hk'] at h
      have hk2 : (k != name) = true := by simp [Ne.symm hk]
      rw [List.filter_cons]
      simp only [hk2, if_true]
      rw [ih h]

theorem lookup_filter_ne (c : Cache) (name other : String) (h : other ≠ name) :
    (c.filter (fun e => e.1 != name)).lookup other = c.lookup other := by
  induction c with
  | nil => rfl
  | cons e c ih =>
    obtain ⟨k, v⟩ := e
    by_cases hk : k = name
    · subst hk
      have h1 : (other == k) = false := by simp [h]
      simp [List.filter_cons, List.lookup_cons, h1, ih]
    · have h2 : (k != name) = true := by simp [hk]
      rw [List.filter_cons]
      simp only [h2, if_true, List.lookup_cons, ih]

theorem stat_writeFileAtomic_same (c : Cache) (name data : String) :
    (WriteFileAtomic c name data).stat name = some data.utf8ByteSize := by
  simp [Cache.stat, WriteFileAtomic, List.lookup_cons]

theorem stat_writeFileAtomic_ne (c : Cache) (name data other : String) (h : other ≠ name) :
    (WriteFileAtomic c name data).stat other = c.stat other := by
  have h1 : (other == name) = false := by simp [h]
  simp only [Cache.stat, WriteFileAtomic, List.lookup_cons, h1]
  rw [lookup_filter_ne c name other h]

theorem wrapFunc_soft404 (cfg : Config) (w : World) (s : State) (hf : s.fatal = false)
    (hc : (s.subsequentRefreshes : Int) ≤ cfg.maxSubsequentRefreshes)
    (habs : s.cache.lookup (filename (s.id + 1)) = none)
    (hsoft : w.soft404At (s.id + 1) = true) :
    wrapFunc cfg w s = s.afterSoft404s 1 := by
  simp only [World.soft404At, Response.refreshes, Bool.and_eq_true, Bool.not_eq_true',
    decide_eq_true_eq] at hsoft
  obtain ⟨⟨⟨h1, h2⟩, h3⟩, h4⟩ := hsoft
  have hc' : ¬ ((s.subsequentRefreshes : Int) > cfg.maxSubsequentRefreshes) := by omega
  have h2' : ¬ ((w.get (s.id + 1)).StatusCode ≥ 400) := by omega
  simp [wrapFunc, fetch, hf, hc', Cache.stat, habs, h1, h2', h3, h4, State.afterSoft404s,
    sentinels, WriteFileAtomic, filter_ne_of_lookup_none _ _ habs]

theorem wrapFunc_realPage (cfg : Config) (w : World) (s : State) (b : String)
    (hf : s.fatal = false)
    (hc : (s.subsequentRefreshes : Int) ≤ cfg.maxSubsequentRefreshes)
    (habs : s.cache.lookup (filename (s.id + 1)) = none)
    (hreal : w.realPageAt (s.id + 1) b = true) :
    wrapFunc cfg w s = s.afterRealPage b := by
  simp only [World.realPageAt, Response.refreshes, Bool.and_eq_true, Bool.not_eq_true',
    decide_eq_true_eq, beq_iff_eq] at hreal
  obtain ⟨⟨⟨⟨h1, h2⟩, h3⟩, h4⟩, h5⟩ := hreal
  have hc' : ¬ ((s.subsequentRefreshes : Int) > cfg.maxSubsequentRefreshes) := by omega
  have h2' : ¬ ((w.get (s.id + 1)).StatusCode ≥ 400) := by omega
  simp [wrapFunc, fetch, hf, hc', Cache.stat, habs, h1, h2', h3, h4, h5, State.afterRealPage,
    WriteFileAtomic, filter_ne_of_lookup_none _ _ habs]

theorem afterSoft404s_succ (s : State) (k : Nat) :
    (s.afterSoft404s 1).afterSoft404s k = s.afterSoft404s (k + 1) := by
  have hr : List.range' (s.id + 1) (k + 1) = (s.id + 1) :: List.range' (s.id + 1 + 1) k := by
    rw [List.range'_succ]
  simp only [State.afterSoft404s, sentinels, State.mk.injEq, hr]
  refine ⟨by omega, by omega, ?_, ?_, ?_, trivial, trivial⟩
  · simp
  · simp
  · simp

theorem lookup_sentinels (name : String) (rest : Cache) : ∀ (k i : Nat),
    (∀ j, i < j → j ≤ i + k → filename j ≠ name) →
    (sentinels i k ++ rest).lookup name = rest.lookup name := by
  intro k
  induction k with
  | zero => intro i _; rfl
  | succ k ih =>
    intro i h
    have hr : List.range' (i + 1) (k + 1) = List.range' (i + 1) k ++ [i + 1 + k] := by
      rw [List.range'_concat]; simp
    have hs : sentinels i (k + 1) = (filename (i + 1 + k), "") :: sentinels i k := by
      simp [sentinels, hr]
    have hne : (name == filename (i + 1 + k)) = false := by
      have := h (i + 1 + k) (by omega) (by omega)
      simp [Ne.symm this]
    rw [hs, List.cons_append, List.lookup_cons, hne]
    exact ih i (fun j h1 h2 => h j h1 (by omega))

theorem lookup_sentinels_mem (rest : Cache) : ∀ (k i j : Nat), i < j → j ≤ i + k →
    (sentinels i k ++ rest).lookup (filename j) = some "" := by
  intro k
  induction k with
  | zero => intro i j h1 h2; omega
  | succ k ih =>
    intro i j h1 h2
    have hr : List.range' (i + 1) (k + 1) = List.range' (i + 1) k ++ [i + 1 + k] := by
      rw [List.range'_concat]; simp
    have hs : sentinels i (k + 1) = (filename (i + 1 + k), "") :: sentinels i k := by
      simp [sentinels, hr]
    rw [hs, List.cons_append, List.lookup_cons]
    by_cases hj : j = i + 1 + k
    · subst hj; simp
    · have hne : (filename j == filename (i + 1 + k)) = false := by
        simp only [beq_eq_false_iff_ne, ne_eq]
        exact fun h => hj (filename_injective h)
      rw [hne]
      exact ih i j h1 (by omega)

theorem loop_soft404s (cfg : Config) (w : World) : ∀ (k : Nat) (s : State), s.fatal = false →
    ((s.subsequentRefreshes : Int) + k ≤ cfg.maxSubsequentRefreshes + 1) →
    (∀ i, s.id < i → i ≤ s.id + k →
      s.cache.lookup (filename i) = none ∧ w.soft404At i = true) →
    loop cfg w k s = s.afterSoft404s k := by
  intro k
  induction k with
  | zero =>
    intro s hf _ _
    cases s
    simp only at hf
    simp [loop, State.afterSoft404s, sentinels, hf]
  | succ k ih =>
    intro s hf hc h
    have h1 := h (s.id + 1) (by omega) (by omega)
    have hstep := wrapFunc_soft404 cfg w s hf (by push_cast at hc; omega) h1.1 h1.2
    rw [loop, hstep, ← afterSoft404s_succ s k]
    apply ih
    · rfl
    · simp only [State.afterSoft404s]; push_cast at hc ⊢; omega
    · intro i hi1 hi2
      simp only [State.afterSoft404s] at hi1 hi2 ⊢
      have h2 := h i (by omega) (by omega)
      refine ⟨?_, h2.2⟩
      rw [lookup_sentinels _ _ 1 s.id]
      · exact h2.1
      · intro j hj1 hj2 heq
        have := filename_injective heq
        omega

theorem mem_insertEntry (e x : String × String) (l : List (String × String)) :
    x ∈ insertEntry e l ↔ x = e ∨ x ∈ l := by
  induction l with
  | nil => simp [insertEntry]
  | cons y l ih =>
    simp only [insertEntry]
    split
    · simp only [List.mem_cons, ih]; tauto
    · simp only [List.mem_cons]

theorem mem_walk (c : Cache) (x : String × String) : x ∈ walk c ↔ x ∈ c := by
  induction c with
  | nil => simp [walk]
  | cons e c ih =>
    show x ∈ insertEntry e (walk c) ↔ _
    rw [mem_insertEntry, ih, List.mem_cons]

theorem extractionPass_of_all_empty (pup : Pup) (c : Cache) (h : ∀ e ∈ c, e.2 = "") :
    extractionPass pup c = [] := by
  have hf : (walk c).filter (fun e => !(e.2.utf8ByteSize == 0)) = [] := by
    rw [List.filter_eq_nil_iff]
    intro e he
    rw [mem_walk] at he
    rw [h e he]
    decide
  simp [extractionPass, extractFromFiles, hf]

theorem mem_sentinels (i k : Nat) (e : String × String) (h : e ∈ sentinels i k) : e.2 = "" := by
  simp only [sentinels, List.mem_reverse, List.mem_map] at h
  obtain ⟨j, _, rfl⟩ := h
  rfl

theorem crawl_soft404s (cfg : Config) (w : World)
    (ht : 0 ≤ cfg.maxSubsequentRefreshes)
    (hm : cfg.maxSubsequentRefreshes + 1 ≤ cfg.maxID)
    (hsoft : ∀ i, 1 ≤ i → i ≤ cfg.maxSubsequentRefreshes.toNat + 1 → w.soft404At i = true) :
    crawl cfg w [] = (State.init []).afterSoft404s (cfg.maxSubsequentRefreshes.toNat + 1) := by
  obtain ⟨r, hr⟩ : ∃ r, cfg.maxID.toNat = (cfg.maxSubsequentRefreshes.toNat + 1) + r :=
    ⟨cfg.maxID.toNat - (cfg.maxSubsequentRefreshes.toNat + 1), by omega⟩
  rw [crawl, hr, loop_add,
    loop_soft404s cfg w (cfg.maxSubsequentRefreshes.toNat + 1) (State.init []) rfl]
  · apply loop_of_exceeded
    simp only [State.afterSoft404s, State.init]
    push_cast
    omega
  · simp only [State.init]; push_cast; omega
  · intro i h1 h2
    simp only [State.init] at h1 h2
    exact ⟨rfl, hsoft i (by omega) (by omega)⟩

theorem utf8ByteSize_pos (b : String) (h : b ≠ "") : 0 < b.utf8ByteSize := by
  obtain ⟨cs⟩ := b
  cases cs with
  | nil => exact absurd rfl h
  | cons c cs =>
    show 0 < String.utf8ByteSize.go (c :: cs)
    have := c.utf8Size_pos
    simp only [String.utf8ByteSize.go]
    omega

theorem range'_one_append (q k : Nat) :
    List.range' 1 q ++ (q + 1) :: List.range' (q + 1 + 1) k = List.range' 1 (q + 1 + k) := by
  have h1 : (q + 1) :: List.range' (q + 1 + 1) k = List.range' (q + 1) (k + 1) := by
    rw [List.range'_succ]
  have h2 := List.range'_append 1 q (k + 1) 1
  rw [Nat.one_mul, Nat.add_comm 1 q] at h2
  rw [h1, h2]
  congr 1
  omega

theorem crawl_single_page (cfg : Config) (w : World) (b : String) (q : Nat)
    (ht : (q : Int) ≤ cfg.maxSubsequentRefreshes)
    (hm : (q : Int) + 1 + (cfg.maxSubsequentRefreshes + 1) ≤ cfg.maxID)
    (hreal : w.realPageAt (q + 1) b = true)
    (hsoft : ∀ i, i ≠ q + 1 → w.soft404At i = true) :
    crawl cfg w [] =
      (((State.init []).afterSoft404s q).afterRealPage b).afterSoft404s
        (cfg.maxSubsequentRefreshes.toNat + 1) := by
  obtain ⟨r, hr⟩ : ∃ r, cfg.maxID.toNat = q + (1 + ((cfg.maxSubsequentRefreshes.toNat + 1) + r)) :=
    ⟨cfg.maxID.toNat - (q + (1 + (cfg.maxSubsequentRefreshes.toNat + 1))), by omega⟩
  have h1 : loop cfg w q (State.init []) = (State.init []).afterSoft404s q := by
    apply loop_soft404s cfg w q (State.init []) rfl
    · simp only [State.init]; push_cast; omega
    · intro i hi1 hi2
      simp only [State.init] at hi1 hi2
      exact ⟨rfl, hsoft i (by omega)⟩
  have hid : ((State.init []).afterSoft404s q).id + 1 = q + 1 := by
    simp [State.afterSoft404s, State.init]
  have h2 : wrapFunc cfg w ((State.init []).afterSoft404s q) =
      ((State.init []).afterSoft404s q).afterRealPage b := by
    apply wrapFunc_realPage cfg w _ b rfl
    · simp only [State.afterSoft404s, State.init]; push_cast; omega
    · rw [hid]
      show (sentinels 0 q ++ []).lookup (filename (q + 1)) = none
      rw [lookup_sentinels _ _ q 0]
      · rfl
      · intro j hj1 hj2 heq
        have := filename_injective heq
        omega
    · rw [hid]; exact hreal
  have h3 : loop cfg w (cfg.maxSubsequentRefreshes.toNat + 1)
      (((State.init []).afterSoft404s q).afterRealPage b) =
      (((State.init []).afterSoft404s q).afterRealPage b).afterSoft404s
        (cfg.maxSubsequentRefreshes.toNat + 1) := by
    apply loop_soft404s cfg w _ _ rfl
    · simp only [State.afterRealPage]; push_cast; omega
    · intro i hi1 hi2
      simp only [State.afterRealPage, State.afterSoft404s, State.init] at hi1 hi2 ⊢
      refine ⟨?_, hsoft i (by omega)⟩
      have hne : (filename i == filename (0 + q + 1)) = false := by
        simp only [beq_eq_false_iff_ne, ne_eq]
        intro heq
        have := filename_injective heq
        omega
      rw [List.lookup_cons, hne, lookup_sentinels _ _ q 0]
      · rfl
      · intro j hj1 hj2 heq
        have := filename_injective heq
        omega
  have h2' : loop cfg w 1 ((State.init []).afterSoft404s q) =
      ((State.init []).afterSoft404s q).afterRealPage b := h2
  rw [crawl, hr, loop_add, h1, loop_add, h2', loop_add, h3]
  apply loop_of_exceeded
  simp only [State.afterSoft404s, State.afterRealPage]
  push_cast
  omega

theorem fixedDigits_all_isDigit (w : Nat) : ∀ n, (fixedDigits w n).all Char.isDigit = true := by
  induction w with
  | zero => intro n; rfl
  | succ w ih =>
    intro n
    have hd : (Nat.digitChar (n % 10)).isDigit = true := by
      have : n % 10 < 10 := Nat.mod_lt _ (by norm_num)
      interval_cases (n % 10) <;> rfl
    simp only [fixedDigits, List.all_append, ih, List.all_cons, hd, List.all_nil, Bool.and_self]

theorem insertEntry_filename (f : Nat → String) (i : Nat) (hi : i < 10 ^ 6) :
    ∀ l : List Nat, (∀ x ∈ l, x < 10 ^ 6) →
      insertEntry (filename i, f i) (l.map (fun x => (filename x, f x))) =
        (l.orderedInsert (· ≤ ·) i).map (fun x => (filename x, f x)) := by
  intro l
  induction l with
  | nil => intro _; rfl
  | cons x xs ih =>
    intro h
    have hx : x < 10 ^ 6 := h x (List.mem_cons_self _ _)
    have ih' := ih (fun y hy => h y (List.mem_cons_of_mem _ hy))
    simp only [List.map_cons, insertEntry, strLess_filename x i hx hi, decide_eq_true_eq,
      List.orderedInsert]
    by_cases hxi : x < i
    · have : ¬ i ≤ x := by omega
      simp only [hxi, this, if_true, if_false, List.map_cons, ih']
    · have : i ≤ x := by omega
      simp only [hxi, this, if_true, if_false, List.map_cons]

theorem walk_filenames (f : Nat → String) : ∀ ids : List Nat, (∀ i ∈ ids, i < 10 ^ 6) →
    walk (ids.map (fun x => (filename x, f x))) =
      (ids.insertionSort (· ≤ ·)).map (fun x => (filename x, f x)) := by
  intro ids
  induction ids with
  | nil => intro _; rfl
  | cons i ids ih =>
    intro h
    have ih' := ih (fun y hy => h y (List.mem_cons_of_mem _ hy))
    show insertEntry (filename i, f i) (walk (ids.map (fun x => (filename x, f x)))) = _
    rw [ih', List.insertionSort]
    apply insertEntry_filename f i (h i (List.mem_cons_self _ _))
    intro x hx
    exact h x (List.mem_cons_of_mem _ ((List.perm_insertionSort _ ids).subset hx))

theorem getLast?_range'_one (n : Nat) : (List.range' 1 (n + 1)).getLast? = some (n + 1) := by
  rw [List.range'_concat, List.getLast?_append]
  simp [Nat.add_comm]

theorem stat_sentinels_mem (rest : Cache) (k i j : Nat) (h1 : i < j) (h2 : j ≤ i + k) :
    Cache.stat (sentinels i k ++ rest) (filename j) = some 0 := by
  rw [Cache.stat, lookup_sentinels_mem rest k i j h1 h2]
  rfl

theorem stat_sentinels_not_mem (rest : Cache) (k i j : Nat) (h : j ≤ i ∨ i + k < j) :
    Cache.stat (sentinels i k ++ rest) (filename j) = Cache.stat rest (filename j) := by
  rw [Cache.stat, lookup_sentinels _ rest k i, Cache.stat]
  intro x hx1 hx2 heq
  have := filename_injective heq
  omega

theorem singlePage_requests (b : String) (q n : Nat) :
    ((((State.init []).afterSoft404s q).afterRealPage b).afterSoft404s n).requests =
      List.range' 1 (q + 1 + n) := by
  simp only [State.afterSoft404s, State.afterRealPage, State.init, Nat.zero_add,
    List.nil_append, List.append_assoc, List.singleton_append]
  exact range'_one_append q n

theorem singlePage_stat_page (b : String) (q n : Nat) :
    ((((State.init []).afterSoft404s q).afterRealPage b).afterSoft404s n).cache.stat
      (filename (q + 1)) = some b.utf8ByteSize := by
  simp only [State.afterSoft404s, State.afterRealPage, State.init, Nat.zero_add]
  rw [stat_sentinels_not_mem _ _ _ _ (Or.inl (Nat.le_refl _))]
  simp [Cache.stat, List.lookup_cons]

theorem singlePage_stat_before (b : String) (q n i : Nat) (h1 : 1 ≤ i) (h2 : i ≤ q) :
    ((((State.init []).afterSoft404s q).afterRealPage b).afterSoft404s n).cache.stat
      (filename i) = some 0 := by
  simp only [State.afterSoft404s, State.afterRealPage, State.init, Nat.zero_add]
  rw [stat_sentinels_not_mem _ _ _ _ (Or.inl (by omega))]
  have hne : (filename i == filename (q + 1)) = false := by
    simp only [beq_eq_false_iff_ne, ne_eq]
    intro heq
    have := filename_injective heq
    omega
  have := stat_sentinels_mem [] q 0 i (by omega) (by omega)
  simp only [Cache.stat, List.lookup_cons, hne] at this ⊢
  exact this

theorem onlyPage281_soft (i : Nat) (h : i ≠ 281) : onlyPage281.soft404At i = true := by
  simp only [World.soft404At, onlyPage281, h, if_false]
  decide

theorem onlyPage281_real : onlyPage281.realPageAt 281 page281 = true := by
  decide

theorem fetch_requests (w : World) (s : State) :
    (fetch w s).requests = s.requests ++ [s.id] := by
  simp only [fetch]
  split_ifs <;> (try split) <;> rfl

theorem fetch_id (w : World) (s : State) : (fetch w s).id = s.id := by
  simp only [fetch]
  split_ifs <;> (try split) <;> rfl

theorem fetch_stats (w : World) (s : State) : (fetch w s).stats = s.stats := by
  simp only [fetch]
  split_ifs <;> (try split) <;> rfl

theorem fetch_counter (w : World) (s : State) (h : (fetch w s).fatal = false) :
    (fetch w s).subsequentRefreshes =
      if (w.get s.id).refreshes then s.subsequentRefreshes + 1 else 0 := by
  simp only [fetch, Response.refreshes] at h ⊢
  split_ifs at h ⊢ <;> (try split at h) <;> simp_all

theorem fetch_stat_ne (w : World) (s : State) (j : Nat) (h : j ≠ s.id) :
    (fetch w s).cache.stat (filename j) = s.cache.stat (filename j) := by
  have hne : filename j ≠ filename s.id := fun heq => h (filename_injective heq)
  simp only [fetch]
  split_ifs <;> (try split) <;>
    first
      | rfl
      | exact stat_writeFileAtomic_ne _ _ _ _ hne

theorem wrapFunc_skip (cfg : Config) (w : World) (s : State) (hf : s.fatal = false)
    (hc : ¬ (s.subsequentRefreshes : Int) > cfg.maxSubsequentRefreshes)
    (hn : needsFetch cfg s = false) :
    wrapFunc cfg w s = { s with id := s.id + 1, stats := s.stats ++ [s.id + 1] } := by
  simp only [wrapFunc, hf, hc, if_false, Bool.false_eq_true]
  simp only [needsFetch] at hn
  split at hn
  · simp at hn
  · rename_i size hst
    simp only [hst]
    have : (decide (size > 0) || !cfg.force) = true := by
      cases hforce : cfg.force <;> simp_all
      omega
    simp only [this, if_true]

theorem wrapFunc_fetch (cfg : Config) (w : World) (s : State) (hf : s.fatal = false)
    (hc : ¬ (s.subsequentRefreshes : Int) > cfg.maxSubsequentRefreshes)
    (hn : needsFetch cfg s = true) :
    wrapFunc cfg w s = fetch w { s with id := s.id + 1, stats := s.stats ++ [s.id + 1] } := by
  simp only [wrapFunc, hf, hc, if_false, Bool.false_eq_true]
  simp only [needsFetch] at hn
  split at hn
  · rename_i hst
    simp only [hst]
  · rename_i size hst
    simp only [hst]
    have : (decide (size > 0) || !cfg.force) = false := by
      cases hforce : cfg.force <;> simp_all
    simp only [this, Bool.false_eq_true, if_false]

theorem needsFetch_iff (cfg : Config) (s : State) :
    needsFetch cfg s = true ↔
      (s.cache.stat (filename (s.id + 1)) = none ∨
        (s.cache.stat (filename (s.id + 1)) = some 0 ∧ cfg.force = true)) := by
  simp only [needsFetch]
  split
  · rename_i h; simp [h]
  · rename_i size h; simp [h]

theorem needsFetch_eq_false_iff (cfg : Config) (s : State) :
    needsFetch cfg s = false ↔
      ∃ size, s.cache.stat (filename (s.id + 1)) = some size ∧ (0 < size ∨ cfg.force = false) := by
  simp only [needsFetch]
  split
  · rename_i h; simp [h]
  · rename_i size h
    simp only [h, Option.some.injEq, exists_eq_left', Bool.and_eq_false_imp, beq_iff_eq]
    constructor
    · intro hh
      by_cases hs : size = 0
      · exact Or.inr (hh hs)
      · exact Or.inl (by omega)
    · rintro (hh | hh) hs
      · omega
      · exact hh

theorem append_singleton_ne_self (l : List Nat) (x : Nat) : l ++ [x] ≠ l := by
  intro h
  have := congrArg List.length h
  simp at this

theorem streak_append (w : World) (requests : List Nat) (i : Nat) :
    streak w (requests ++ [i]) = if (w.get i).refreshes then streak w requests + 1 else 0 := by
  simp only [streak, List.reverse_append, List.reverse_cons, List.reverse_nil, List.nil_append,
    List.singleton_append, List.takeWhile_cons]
  split <;> simp

theorem wrapFunc_cases (cfg : Config) (w : World) (s : State) :
    wrapFunc cfg w s = s ∨
    (s.fatal = false ∧ needsFetch cfg s = false ∧
      wrapFunc cfg w s = { s with id := s.id + 1, stats := s.stats ++ [s.id + 1] }) ∨
    (s.fatal = false ∧ needsFetch cfg s = true ∧
      wrapFunc cfg w s = fetch w { s with id := s.id + 1, stats := s.stats ++ [s.id + 1] }) := by
  by_cases hf : s.fatal = true
  · exact Or.inl (wrapFunc_of_fatal cfg w s hf)
  · rw [Bool.not_eq_true] at hf
    by_cases hc : (s.subsequentRefreshes : Int) > cfg.maxSubsequentRefreshes
    · exact Or.inl (wrapFunc_of_exceeded cfg w s hc)
    · by_cases hn : needsFetch cfg s = true
      · exact Or.inr (Or.inr ⟨hf, hn, wrapFunc_fetch cfg w s hf hc hn⟩)
      · rw [Bool.not_eq_true] at hn
        exact Or.inr (Or.inl ⟨hf, hn, wrapFunc_skip cfg w s hf hc hn⟩)

theorem wrapFunc_counter (cfg : Config) (w : World) (s : State)
    (h : (wrapFunc cfg w s).fatal = false) :
    ((wrapFunc cfg w s).requests = s.requests →
      (wrapFunc cfg w s).subsequentRefreshes = s.subsequentRefreshes) ∧
    (∀ i, (wrapFunc cfg w s).requests = s.requests ++ [i] →
      (wrapFunc cfg w s).subsequentRefreshes =
        if (w.get i).refreshes then s.subsequentRefreshes + 1 else 0) := by
  rcases wrapFunc_cases cfg w s with h1 | ⟨_, _, h1⟩ | ⟨_, _, h1⟩
  · rw [h1]
    exact ⟨fun _ => rfl, fun i hi => absurd hi.symm (append_singleton_ne_self _ _)⟩
  · rw [h1]
    exact ⟨fun _ => rfl, fun i hi => absurd hi.symm (append_singleton_ne_self _ _)⟩
  · rw [h1] at h ⊢
    rw [fetch_requests]
    refine ⟨fun hi => absurd hi (append_singleton_ne_self _ _), fun i hi => ?_⟩
    have hi' : s.id + 1 = i := by
      have := List.append_cancel_left hi
      simpa using this
    rw [fetch_counter w _ h, ← hi']

theorem loop_counter_inv (cfg : Config) (w : World) (cache : Cache) : ∀ n : Nat,
    (loop cfg w n (State.init cache)).fatal = false →
    (loop cfg w n (State.init cache)).subsequentRefreshes =
      streak w (loop cfg w n (State.init cache)).requests := by
  intro n
  induction n with
  | zero => intro _; rfl
  | succ n ih =>
    rw [loop_succ_right]
    intro h
    rcases wrapFunc_cases cfg w (loop cfg w n (State.init cache)) with h1 | ⟨hf, _, h1⟩ |
      ⟨hf, _, h1⟩
    · rw [h1] at h ⊢; exact ih h
    · rw [h1]; exact ih hf
    · rw [h1] at h ⊢
      rw [fetch_counter w _ h, fetch_requests, streak_append]
      simp only [ih hf]

theorem loop_requests_inv (cfg : Config) (w : World) (cache : Cache) : ∀ n : Nat,
    (∀ j, (loop cfg w n (State.init cache)).id < j →
      (loop cfg w n (State.init cache)).cache.stat (filename j) = cache.stat (filename j)) ∧
    (∀ i ∈ (loop cfg w n (State.init cache)).requests,
      cache.stat (filename i) = none ∨ (cache.stat (filename i) = some 0 ∧ cfg.force = true)) := by
  intro n
  induction n with
  | zero => exact ⟨fun _ _ => rfl, fun i hi => by simp [loop, State.init] at hi⟩
  | succ n ih =>
    rw [loop_succ_right]
    rcases wrapFunc_cases cfg w (loop cfg w n (State.init cache)) with h1 | ⟨_, _, h1⟩ |
      ⟨_, hn, h1⟩
    · rw [h1]; exact ih
    · rw [h1]
      exact ⟨fun j hj => ih.1 j (by simp only at hj; omega), ih.2⟩
    · rw [h1]
      constructor
      · intro j hj
        rw [fetch_id] at hj
        simp only at hj
        rw [fetch_stat_ne w _ j (by simp only; omega)]
        exact ih.1 j (by omega)
      · intro i hi
        rw [fetch_requests, List.mem_append, List.mem_singleton] at hi
        rcases hi with hi | hi
        · exact ih.2 i hi
        · subst hi
          have := (needsFetch_iff cfg _).1 hn
          rw [ih.1 _ (Nat.lt_succ_self _)] at this
          exact this

theorem header_get_refresh_ne (h : Header) :
    h.get "refresh" ≠ "" ↔ ∃ v vs, h.lookup "Refresh" = some (v :: vs) ∧ v ≠ "" := by
  have hk : canonicalMIMEHeaderKey "refresh" = "Refresh" := by decide
  simp only [Header.get, hk]
  cases hl : List.lookup "Refresh" h with
  | none => simp
  | some vs =>
    cases vs with
    | nil => simp
    | cons v vs => simp

theorem wrapFunc_classify (cfg : Config) (w : World) (s : State) (b : String)
    (hf : s.fatal = false)
    (hc : ¬ (s.subsequentRefreshes : Int) > cfg.maxSubsequentRefreshes)
    (hn : needsFetch cfg s = true)
    (herr : (w.get (s.id + 1)).err = false)
    (hstatus : (w.get (s.id + 1)).StatusCode < 400)
    (hbody : (w.get (s.id + 1)).Body = some b)
    (hwrite : w.writeFails (s.id + 1) = false) :
    wrapFunc cfg w s =
      if (w.get (s.id + 1)).Header.get "refresh" ≠ "" then
        { s with id := s.id + 1, stats := s.stats ++ [s.id + 1],
                 requests := s.requests ++ [s.id + 1],
                 cache := WriteFileAtomic s.cache (filename (s.id + 1)) "",
                 subsequentRefreshes := s.subsequentRefreshes + 1 }
      else
        { s with id := s.id + 1, stats := s.stats ++ [s.id + 1],
                 requests := s.requests ++ [s.id + 1],
                 cache := WriteFileAtomic s.cache (filename (s.id + 1)) b,
                 subsequentRefreshes := 0, sleeps := s.sleeps + 1 } := by
  have hst : ¬ (w.get (s.id + 1)).StatusCode ≥ 400 := by omega
  rw [wrapFunc_fetch cfg w s hf hc hn]
  simp only [fetch, herr, hst, hbody, hwrite, Bool.false_eq_true, if_false]
  by_cases hr : (w.get (s.id + 1)).Header.get "refresh" = ""
  · simp [hr]
  · simp [hr]

theorem wrapFunc_stats (cfg : Config) (w : World) (s : State) (hf : s.fatal = false)
    (hc : ¬ (s.subsequentRefreshes : Int) > cfg.maxSubsequentRefreshes) :
    (wrapFunc cfg w s).stats = s.stats ++ [s.id + 1] := by
  by_cases hn : needsFetch cfg s = true
  · rw [wrapFunc_fetch cfg w s hf hc hn, fetch_stats]
  · rw [Bool.not_eq_true] at hn
    rw [wrapFunc_skip cfg w s hf hc hn]

/-! ## C1: endpoint derivation -/

/-- C1: the endpoint that `extractJournalInfo` computes is a function of the
homepage, defined on every string `h`: when `h` ends with `/index` that
trailing `/index` is replaced by `/oai`; otherwise, when `h` ends with `/`,
it is `h` followed by `oai`; otherwise it is `h` followed by `/oai`.  In
particular the endpoints of `http://x/`, `http://x/index` and `http://x`
are all `http://x/oai`, and the endpoint of the empty string is `/oai`. -/
theorem endpoint_spec :
    (∀ (pup : Pup) (html : String),
      (extractJournalInfo pup html).Endpoint = endpoint (extractJournalInfo pup html).Homepage) ∧
    (∀ h : String,
      (∀ p : String, h = p ++ "/index" → endpoint h = p ++ "/oai") ∧
      ((¬ ∃ p : String, h = p ++ "/index") → (∃ p : String, h = p ++ "/") →
        endpoint h = h ++ "oai") ∧
      ((¬ ∃ p : String, h = p ++ "/index") → (¬ ∃ p : String, h = p ++ "/") →
        endpoint h = h ++ "/oai")) ∧
    endpoint "http://x/" = "http://x/oai" ∧
    endpoint "http://x/index" = "http://x/oai" ∧
    endpoint "http://x" = "http://x/oai" ∧
    endpoint "" = "/oai" := by
  refine ⟨fun _ _ => rfl, fun h => ⟨?_, ?_, ?_⟩, by decide, by decide, by decide, by decide⟩
  · rintro p rfl
    exact endpoint_index p
  · intro h1 h2
    have h1' : hasSuffix h "/index" = false := by
      rw [← Bool.not_eq_true, hasSuffix_iff]; exact h1
    have h2' : hasSuffix h "/" = true := (hasSuffix_iff _ _).2 h2
    simp [endpoint, h1', h2']
  · intro h1 h2
    have h1' : hasSuffix h "/index" = false := by
      rw [← Bool.not_eq_true, hasSuffix_iff]; exact h1
    have h2' : hasSuffix h "/" = false := by
      rw [← Bool.not_eq_true, hasSuffix_iff]; exact h2
    simp [endpoint, h1', h2']

/-- Witness for C1: the three cases at `a/index`, at `a/` and at `a`. -/
theorem endpoint_spec_witness :
    endpoint ("a" ++ "/index") = "a" ++ "/oai" ∧ endpoint "a/" = "a/" ++ "oai" ∧
    endpoint "a" = "a" ++ "/oai" :=
  ⟨(endpoint_spec.2.1 ("a" ++ "/index")).1 "a" rfl,
   (endpoint_spec.2.1 "a/").2.1
     (by rintro ⟨p, hp⟩
         have := (hasSuffix_iff "a/" "/index").2 ⟨p, hp⟩
         revert this; decide)
     ⟨"a", by decide⟩,
   (endpoint_spec.2.1 "a").2.2
     (by rintro ⟨p, hp⟩
         have := (hasSuffix_iff "a" "/index").2 ⟨p, hp⟩
         revert this; decide)
     (by rintro ⟨p, hp⟩
         have := (hasSuffix_iff "a" "/").2 ⟨p, hp⟩
         revert this; decide)⟩

/-! ## C2: empty and white-space input -/

/-- C2, as the claim states it, fails: on the empty input the record has
the endpoint `/oai`, which is not the empty string. -/
theorem extractJournalInfo_empty_endpoint_ne :
    (extractJournalInfo (fun _ _ => none) "").Name = "" ∧
    (extractJournalInfo (fun _ _ => none) "").Homepage = "" ∧
    (extractJournalInfo (fun _ _ => none) "").Endpoint = "/oai" ∧
    (extractJournalInfo (fun _ _ => none) "").Endpoint ≠ "" := by
  decide

/-- C2 (amended): for every input that is empty or consists only of white
space, and whatever the selector command does, `extractJournalInfo` returns
the record with empty name, empty homepage and endpoint `/oai`. -/
theorem extractJournalInfo_whitespace (pup : Pup) (html : String)
    (h : html.data.all isSpace = true) :
    extractJournalInfo pup html = { Name := "", Homepage := "", Endpoint := "/oai" } := by
  simp only [extractJournalInfo, runPup_of_all_space pup html _ h]
  rfl

/-- Witness for C2 (amended), on an input of a blank, a tab and a newline. -/
theorem extractJournalInfo_whitespace_witness :
    (" \t\n".data.all isSpace = true) ∧
    extractJournalInfo (fun _ s => some s) " \t\n" =
      { Name := "", Homepage := "", Endpoint := "/oai" } :=
  ⟨by decide, extractJournalInfo_whitespace (fun _ s => some s) " \t\n" (by decide)⟩

/-! ## C3: the max ID bound -/

/-- C3 at failing inputs: with max ID 1 the loop inspects the cache path of
the id 1, whatever the upstream, the cache and the force flag are; and with
max ID 3, an empty cache and an upstream that has a page for every id, the
loop inspects the cache path of the ids 1, 2 and 3 and requests all three.
The id equal to the max ID is attempted. -/
theorem crawl_attempts_maxID :
    (∀ (w : World) (cache : Cache) (force : Bool),
      (crawl { maxID := 1, force := force, maxSubsequentRefreshes := 100 } w cache).stats =
        [1]) ∧
    (crawl { maxID := 3, force := false, maxSubsequentRefreshes := 100 } allPages []).stats =
      [1, 2, 3] ∧
    (crawl { maxID := 3, force := false, maxSubsequentRefreshes := 100 } allPages []).requests =
      [1, 2, 3] ∧
    (crawl { maxID := 3, force := false, maxSubsequentRefreshes := 100 } allPages []).fatal =
      false := by
  refine ⟨fun w cache force => ?_, by decide, by decide, by decide⟩
  exact wrapFunc_stats { maxID := 1, force := force, maxSubsequentRefreshes := 100 } w
    (State.init cache) rfl (show ¬ ((0 : Nat) : Int) > 100 by decide)

/-! ## C4: the cache check -/

/-- C4: in every iteration that is not cut short (the process is alive and
the counter does not exceed the threshold), the request for the next id is
issued if and only if its cache file is absent, or present with length zero
while the force flag is on.  When the file is present and non-empty, or of
length zero with force off, no request is issued and the cache, the counter
(and the number of sleeps) stay as they are.  Hence in a whole run no
request is issued for an id whose cache file was non-empty at the start,
and with force off none for an id that had a cache file at all. -/
theorem cache_check (cfg : Config) (w : World) :
    (∀ s : State, s.fatal = false →
      ¬ (s.subsequentRefreshes : Int) > cfg.maxSubsequentRefreshes →
      (((wrapFunc cfg w s).requests = s.requests ++ [s.id + 1] ↔
          (s.cache.stat (filename (s.id + 1)) = none ∨
            (s.cache.stat (filename (s.id + 1)) = some 0 ∧ cfg.force = true))) ∧
        ((∃ size, s.cache.stat (filename (s.id + 1)) = some size ∧
            (0 < size ∨ cfg.force = false)) →
          (wrapFunc cfg w s).requests = s.requests ∧
          (wrapFunc cfg w s).cache = s.cache ∧
          (wrapFunc cfg w s).subsequentRefreshes = s.subsequentRefreshes ∧
          (wrapFunc cfg w s).sleeps = s.sleeps ∧
          (wrapFunc cfg w s).fatal = false))) ∧
    (∀ (cache : Cache) (i : Nat), i ∈ (crawl cfg w cache).requests →
      ¬ ∃ size, 0 < size ∧ cache.stat (filename i) = some size) ∧
    (cfg.force = false → ∀ (cache : Cache) (i : Nat), i ∈ (crawl cfg w cache).requests →
      cache.stat (filename i) = none) := by
  refine ⟨fun s hf hc => ⟨?_, ?_⟩, ?_, ?_⟩
  · rw [← needsFetch_iff]
    constructor
    · intro h
      by_contra hn
      rw [Bool.not_eq_true] at hn
      rw [wrapFunc_skip cfg w s hf hc hn] at h
      exact append_singleton_ne_self _ _ h.symm
    · intro hn
      rw [wrapFunc_fetch cfg w s hf hc hn, fetch_requests]
  · intro h
    rw [wrapFunc_skip cfg w s hf hc ((needsFetch_eq_false_iff cfg s).2 h)]
    exact ⟨rfl, rfl, rfl, rfl, hf⟩
  · rintro cache i hi ⟨size, hpos, hsize⟩
    rcases (loop_requests_inv cfg w cache cfg.maxID.toNat).2 i hi with h | ⟨h, _⟩
    · rw [h] at hsize; exact absurd hsize (by simp)
    · rw [h] at hsize
      simp only [Option.some.injEq] at hsize
      omega
  · intro hforce cache i hi
    rcases (loop_requests_inv cfg w cache cfg.maxID.toNat).2 i hi with h | ⟨_, h⟩
    · exact h
    · rw [hforce] at h; exact absurd h (by simp)

/-- Witness for C4: with the force flag on, a non-empty cache file for the
id 1 is skipped and a file of length zero for the id 1 is requested again;
the whole run over the ids 1 to 3 requests only the ids 2 and 3 when the id
1 is cached non-empty. -/
theorem cache_check_witness :
    (wrapFunc { maxID := 3, force := true, maxSubsequentRefreshes := 100 } allPages
      (State.init [(filename 1, "x")])).requests = [] ∧
    (wrapFunc { maxID := 3, force := true, maxSubsequentRefreshes := 100 } allPages
      (State.init [(filename 1, "")])).requests = [] ++ [0 + 1] ∧
    (1 ∈ (crawl { maxID := 3, force := true, maxSubsequentRefreshes := 100 } allPages
      [(filename 1, "x")]).requests →
      ¬ ∃ size, 0 < size ∧ Cache.stat [(filename 1, "x")] (filename 1) = some size) :=
  ⟨(((cache_check { maxID := 3, force := true, maxSubsequentRefreshes := 100 } allPages).1
      (State.init [(filename 1, "x")]) rfl (by decide)).2
      ⟨1, by decide, Or.inl (by decide)⟩).1,
   ((cache_check { maxID := 3, force := true, maxSubsequentRefreshes := 100 } allPages).1
      (State.init [(filename 1, "")]) rfl (by decide)).1.2 (Or.inr ⟨by decide, rfl⟩),
   (cache_check { maxID := 3, force := true, maxSubsequentRefreshes := 100 } allPages).2.1
      [(filename 1, "x")] 1⟩

/-! ## C5: an upstream of soft 404s only -/

/-- C5: starting from an empty cache, when the upstream answers every id
with a soft 404 (a refresh header with a non-empty value, and the sentinel
is written), then for every threshold `t ≥ 0` and every max ID of at least
`t + 1` the run does not abort, the crawl requests exactly the ids
`1, ..., t + 1`, the cache ends up as exactly `t + 1` files, one sentinel of
length zero for each of these ids, and the extraction pass yields no
record. -/
theorem crawl_all_soft404 (cfg : Config) (w : World) (pup : Pup)
    (ht : 0 ≤ cfg.maxSubsequentRefreshes)
    (hm : cfg.maxSubsequentRefreshes + 1 ≤ cfg.maxID)
    (hup : ∀ i, w.soft404At i = true) :
    (main cfg w pup []).1.fatal = false ∧
    (main cfg w pup []).1.requests = List.range' 1 (cfg.maxSubsequentRefreshes.toNat + 1) ∧
    (main cfg w pup []).1.requests.length = cfg.maxSubsequentRefreshes.toNat + 1 ∧
    (main cfg w pup []).1.cache =
      ((List.range' 1 (cfg.maxSubsequentRefreshes.toNat + 1)).map
        (fun i => (filename i, ""))).reverse ∧
    (main cfg w pup []).1.cache.length = cfg.maxSubsequentRefreshes.toNat + 1 ∧
    (∀ i, 1 ≤ i → i ≤ cfg.maxSubsequentRefreshes.toNat + 1 →
      (main cfg w pup []).1.cache.stat (filename i) = some 0) ∧
    (main cfg w pup []).2 = some [] := by
  have hc := crawl_soft404s cfg w ht hm (fun i _ _ => hup i)
  have hcache : (crawl cfg w []).cache =
      sentinels 0 (cfg.maxSubsequentRefreshes.toNat + 1) ++ [] := by rw [hc]; rfl
  have hmain : main cfg w pup [] = (crawl cfg w [], some (extractionPass pup (crawl cfg w []).cache)) := by
    simp [main, hc, State.afterSoft404s]
  have hex : extractionPass pup (crawl cfg w []).cache = [] := by
    apply extractionPass_of_all_empty
    intro e he
    rw [hcache, List.append_nil] at he
    exact mem_sentinels _ _ e he
  rw [hmain, hex]
  refine ⟨by rw [hc]; rfl, by rw [hc]; simp [State.afterSoft404s, State.init],
    by rw [hc]; simp [State.afterSoft404s, State.init],
    by rw [hcache]; simp [sentinels], by rw [hcache]; simp [sentinels], ?_, rfl⟩
  intro i h1 h2
  show (crawl cfg w []).cache.stat (filename i) = some 0
  rw [hcache]
  exact stat_sentinels_mem [] _ 0 i (by omega) (by omega)

/-- Witness for C5: threshold 100 and max ID 20000 give exactly 101
requests, 101 sentinels and no record. -/
theorem crawl_all_soft404_witness :
    ((0 : Int) ≤ 100 ∧ (100 : Int) + 1 ≤ 20000 ∧ ∀ i, allSoft404.soft404At i = true) ∧
    (main { maxID := 20000, force := false, maxSubsequentRefreshes := 100 } allSoft404
        (fun _ _ => none) []).1.requests = List.range' 1 101 ∧
    (main { maxID := 20000, force := false, maxSubsequentRefreshes := 100 } allSoft404
        (fun _ _ => none) []).1.requests.length = 101 ∧
    (main { maxID := 20000, force := false, maxSubsequentRefreshes := 100 } allSoft404
        (fun _ _ => none) []).1.cache.length = 101 ∧
    (main { maxID := 20000, force := false, maxSubsequentRefreshes := 100 } allSoft404
        (fun _ _ => none) []).2 = some [] :=
  have h := crawl_all_soft404 { maxID := 20000, force := false, maxSubsequentRefreshes := 100 }
    allSoft404 (fun _ _ => none) (by decide) (by decide) (fun _ => rfl)
  ⟨⟨by decide, by decide, fun _ => rfl⟩, h.2.1, h.2.2.1, h.2.2.2.2.1, h.2.2.2.2.2.2⟩

/-! ## C6: a single real page at id 281 -/

/-- C6, as the claim states it, fails: with threshold 100 and max ID 20000,
against the upstream that has a real page for the id 281 only, the crawl
from an empty cache requests the ids 1 to 101 and then stops, so that 101
(and not 381) is the last id requested, neither 281 nor 381 is ever
requested, and the cache has no file for the id 281. -/
theorem crawl_page_281_not_reached :
    (crawl { maxID := 20000, force := false, maxSubsequentRefreshes := 100 } onlyPage281
      []).requests = List.range' 1 101 ∧
    (crawl { maxID := 20000, force := false, maxSubsequentRefreshes := 100 } onlyPage281
      []).requests.getLast? = some 101 ∧
    281 ∉ (crawl { maxID := 20000, force := false, maxSubsequentRefreshes := 100 } onlyPage281
      []).requests ∧
    381 ∉ (crawl { maxID := 20000, force := false, maxSubsequentRefreshes := 100 } onlyPage281
      []).requests ∧
    (crawl { maxID := 20000, force := false, maxSubsequentRefreshes := 100 } onlyPage281
      []).cache.stat (filename 281) = none := by
  have hc := crawl_soft404s { maxID := 20000, force := false, maxSubsequentRefreshes := 100 }
    onlyPage281 (by decide) (by decide)
    (fun i _ h2 => onlyPage281_soft i (by
      have : i ≤ 101 := h2
      omega))
  have hr : (crawl { maxID := 20000, force := false, maxSubsequentRefreshes := 100 }
      onlyPage281 []).requests = List.range' 1 101 := by rw [hc]; rfl
  have hcache : (crawl { maxID := 20000, force := false, maxSubsequentRefreshes := 100 }
      onlyPage281 []).cache = sentinels 0 101 ++ [] := by rw [hc]; rfl
  rw [hr, hcache]
  refine ⟨rfl, getLast?_range'_one 100, ?_, ?_, ?_⟩
  · simp only [List.mem_range'_1]; omega
  · simp only [List.mem_range'_1]; omega
  · rw [stat_sentinels_not_mem [] 101 0 281 (Or.inr (by decide))]
    rfl

/-- C6 (amended): starting from an empty cache with max ID 20000, when the
upstream returns a real, non-empty page for the id 281 only and a soft 404
for every other id, then with threshold 100 the early stop comes before the
id 281 is reached: exactly the ids 1 to 101 are requested, each gets a
sentinel of length zero, and there is no cache file for 281.  With a
threshold `t` such that `280 ≤ t ≤ 19717` the crawl ends with a non-empty
cache file for 281, sentinels of length zero for the ids 1 to 280, and
`281 + t + 1` is the last id requested. -/
theorem crawl_page_281 (w : World) (b : String) (force : Bool) (hb : b ≠ "")
    (hreal : w.realPageAt 281 b = true) (hsoft : ∀ i, i ≠ 281 → w.soft404At i = true) :
    ((crawl { maxID := 20000, force := force, maxSubsequentRefreshes := 100 } w []).fatal =
        false ∧
      (crawl { maxID := 20000, force := force, maxSubsequentRefreshes := 100 } w []).requests =
        List.range' 1 101 ∧
      (crawl { maxID := 20000, force := force, maxSubsequentRefreshes := 100 } w
        []).requests.getLast? = some 101 ∧
      (∀ i, 1 ≤ i → i ≤ 101 →
        (crawl { maxID := 20000, force := force, maxSubsequentRefreshes := 100 } w
          []).cache.stat (filename i) = some 0) ∧
      (crawl { maxID := 20000, force := force, maxSubsequentRefreshes := 100 } w
        []).cache.stat (filename 281) = none) ∧
    (∀ t : Nat, 280 ≤ t → t ≤ 19717 →
      (crawl { maxID := 20000, force := force, maxSubsequentRefreshes := t } w []).fatal =
        false ∧
      (crawl { maxID := 20000, force := force, maxSubsequentRefreshes := t } w []).requests =
        List.range' 1 (281 + t + 1) ∧
      (crawl { maxID := 20000, force := force, maxSubsequentRefreshes := t } w
        []).requests.getLast? = some (281 + t + 1) ∧
      (∃ size, 0 < size ∧
        (crawl { maxID := 20000, force := force, maxSubsequentRefreshes := t } w
          []).cache.stat (filename 281) = some size) ∧
      (∀ i, 1 ≤ i → i ≤ 280 →
        (crawl { maxID := 20000, force := force, maxSubsequentRefreshes := t } w
          []).cache.stat (filename i) = some 0)) := by
  constructor
  · have hc := crawl_soft404s { maxID := 20000, force := force, maxSubsequentRefreshes := 100 }
      w (show (0 : Int) ≤ 100 by decide) (show (100 : Int) + 1 ≤ 20000 by decide)
      (fun i _ h2 => hsoft i (by
        have : i ≤ 101 := h2
        omega))
    have hr : (crawl { maxID := 20000, force := force, maxSubsequentRefreshes := 100 }
        w []).requests = List.range' 1 101 := by rw [hc]; rfl
    have hcache : (crawl { maxID := 20000, force := force, maxSubsequentRefreshes := 100 }
        w []).cache = sentinels 0 101 ++ [] := by rw [hc]; rfl
    rw [hr, hcache]
    refine ⟨by rw [hc]; rfl, rfl, getLast?_range'_one 100, ?_, ?_⟩
    · intro i h1 h2
      exact stat_sentinels_mem [] 101 0 i (by omega) (by omega)
    · rw [stat_sentinels_not_mem [] 101 0 281 (Or.inr (by decide))]
      rfl
  · intro t h1 h2
    have hc := crawl_single_page
      { maxID := 20000, force := force, maxSubsequentRefreshes := t } w b 280
      (by push_cast; omega) (by push_cast; omega) hreal hsoft
    have ht : ((t : Int)).toNat + 1 = t + 1 := by simp
    simp only [ht] at hc
    rw [hc, singlePage_requests, singlePage_stat_page]
    refine ⟨rfl, by congr 1, ?_, ⟨_, utf8ByteSize_pos b hb, rfl⟩, ?_⟩
    · have := getLast?_range'_one (281 + t)
      exact this
    · intro i hi1 hi2
      exact singlePage_stat_before b 280 (t + 1) i hi1 hi2

/-- Witness for C6 (amended): the upstream that has the info page of the
journal 281 and nothing else, at the thresholds 100 and 280. -/
theorem crawl_page_281_witness :
    (page281 ≠ "" ∧ onlyPage281.realPageAt 281 page281 = true ∧
      ∀ i, i ≠ 281 → onlyPage281.soft404At i = true) ∧
    (crawl { maxID := 20000, force := false, maxSubsequentRefreshes := 100 } onlyPage281
      []).requests = List.range' 1 101 ∧
    (crawl { maxID := 20000, force := false, maxSubsequentRefreshes := (280 : Nat) } onlyPage281
      []).requests.getLast? = some (281 + 280 + 1) :=
  have h := crawl_page_281 onlyPage281 page281 false (by decide) onlyPage281_real
    onlyPage281_soft
  ⟨⟨by decide, onlyPage281_real, onlyPage281_soft⟩, h.1.2.1,
    (h.2 280 (by decide) (by decide)).2.2.1⟩

/-! ## C7: early stop is permanent -/

/-- C7: early stop is permanent.  From a state in which the counter
exceeds the threshold, any number of further iterations leaves the whole
state as it is: no request, no cache write, the same counter and the same
id.  Hence in every run, once the counter exceeds the threshold after `k`
iterations, the state after `k + n` iterations is the state after `k`. -/
theorem early_stop_permanent (cfg : Config) (w : World) (s : State)
    (h : (s.subsequentRefreshes : Int) > cfg.maxSubsequentRefreshes) (n : Nat) :
    loop cfg w n s = s ∧
    (loop cfg w n s).requests = s.requests ∧
    (loop cfg w n s).stats = s.stats ∧
    (loop cfg w n s).cache = s.cache ∧
    (loop cfg w n s).subsequentRefreshes = s.subsequentRefreshes ∧
    (loop cfg w n s).id = s.id := by
  rw [loop_of_exceeded cfg w n s h]
  exact ⟨rfl, rfl, rfl, rfl, rfl, rfl⟩

/-- Witness for C7: threshold 100, the state after 101 soft 404s, and five
further iterations against an upstream that has a page for every id. -/
theorem early_stop_permanent_witness :
    (((State.init []).afterSoft404s 101).subsequentRefreshes : Int) > 100 ∧
    loop { maxID := 20000, force := true, maxSubsequentRefreshes := 100 } allPages 5
      ((State.init []).afterSoft404s 101) = (State.init []).afterSoft404s 101 :=
  ⟨by decide,
   (early_stop_permanent { maxID := 20000, force := true, maxSubsequentRefreshes := 100 }
      allPages ((State.init []).afterSoft404s 101) (by decide) 5).1⟩

/-! ## C8: the counter of subsequent refreshes -/

/-- C8: after any number of iterations of the crawl loop from its start,
in a run that has not aborted, the counter equals the number of soft 404s
fetched since the most recent real page was fetched, or since the start if
there was none.  In each iteration that does not abort, a fetched soft 404
adds exactly 1 to the counter, a fetched real page resets it to 0, and an
iteration without a request (a cached hit) leaves it as it is. -/
theorem counter_is_streak (cfg : Config) (w : World) :
    (∀ (cache : Cache) (n : Nat), (loop cfg w n (State.init cache)).fatal = false →
      (loop cfg w n (State.init cache)).subsequentRefreshes =
        streak w (loop cfg w n (State.init cache)).requests) ∧
    (∀ s : State, (wrapFunc cfg w s).fatal = false →
      ((wrapFunc cfg w s).requests = s.requests →
        (wrapFunc cfg w s).subsequentRefreshes = s.subsequentRefreshes) ∧
      (∀ i, (wrapFunc cfg w s).requests = s.requests ++ [i] →
        (w.get i).Header.get "refresh" ≠ "" →
        (wrapFunc cfg w s).subsequentRefreshes = s.subsequentRefreshes + 1) ∧
      (∀ i, (wrapFunc cfg w s).requests = s.requests ++ [i] →
        (w.get i).Header.get "refresh" = "" →
        (wrapFunc cfg w s).subsequentRefreshes = 0)) := by
  refine ⟨fun cache n h => loop_counter_inv cfg w cache n h, fun s h => ⟨?_, ?_, ?_⟩⟩
  · exact (wrapFunc_counter cfg w s h).1
  · intro i hi hr
    have hr' : (w.get i).refreshes = true := by simp [Response.refreshes, hr]
    rw [(wrapFunc_counter cfg w s h).2 i hi, if_pos hr']
  · intro i hi hr
    have hr' : ¬ (w.get i).refreshes = true := by simp [Response.refreshes, hr]
    rw [(wrapFunc_counter cfg w s h).2 i hi, if_neg hr']

/-- Witness for C8: against the upstream that has a page for the id 3 only,
after two iterations the counter is 2, and the third iteration fetches the
page and resets it. -/
theorem counter_is_streak_witness :
    (loop { maxID := 5, force := false, maxSubsequentRefreshes := 100 }
        { get := fun i => if i = 3 then pageResponse "x" else softResponse,
          writeFails := fun _ => false } 2 (State.init [])).subsequentRefreshes =
      streak { get := fun i => if i = 3 then pageResponse "x" else softResponse,
               writeFails := fun _ => false }
        (loop { maxID := 5, force := false, maxSubsequentRefreshes := 100 }
          { get := fun i => if i = 3 then pageResponse "x" else softResponse,
            writeFails := fun _ => false } 2 (State.init [])).requests ∧
    (wrapFunc { maxID := 5, force := false, maxSubsequentRefreshes := 100 }
        { get := fun i => if i = 3 then pageResponse "x" else softResponse,
          writeFails := fun _ => false }
        ((State.init []).afterSoft404s 2)).subsequentRefreshes = 0 :=
  ⟨(counter_is_streak { maxID := 5, force := false, maxSubsequentRefreshes := 100 }
      { get := fun i => if i = 3 then pageResponse "x" else softResponse,
        writeFails := fun _ => false }).1 [] 2 (by decide),
   ((counter_is_streak { maxID := 5, force := false, maxSubsequentRefreshes := 100 }
      { get := fun i => if i = 3 then pageResponse "x" else softResponse,
        writeFails := fun _ => false }).2 ((State.init []).afterSoft404s 2) (by decide)).2.2 3
      (by decide) (by decide)⟩

/-! ## C9: file names and their order -/

/-- C9, as the claim states it, fails: the ids 999999 and 1000000 are in
numeric order, but the seven-digit file name `page-1000000.html` comes
before `page-999999.html` in lexicographic order. -/
theorem filename_order_fails_beyond_six_digits :
    1 ≤ 999999 ∧ 999999 < 1000000 ∧
    filename 999999 = "page-999999.html" ∧ filename 1000000 = "page-1000000.html" ∧
    strLess (filename 999999) (filename 1000000) = false ∧
    strLess (filename 1000000) (filename 999999) = true := by
  decide

/-- C9 (amended): the cache file name of an id `n` is `page-`, then `n` in
decimal padded with zeros to six digits, then `.html`; and for ids up to
999999 the lexicographic order of the file names is the numeric order of the
ids: for all ids `1 ≤ a < b ≤ 999999` the name of `a` is smaller than the
name of `b`, so that the directory walk over files so named visits them in
ascending order of id. -/
theorem filename_order :
    (∀ n : Nat, n ≤ 999999 →
      filename n = "page-" ++ sprintf06d n ++ ".html" ∧ (sprintf06d n).length = 6 ∧
      (sprintf06d n).data.all Char.isDigit = true ∧ decodeDigits (sprintf06d n).data = n) ∧
    (∀ a b : Nat, 1 ≤ a → a < b → b ≤ 999999 →
      strLess (filename a) (filename b) = true ∧ strLess (filename b) (filename a) = false) ∧
    (∀ (ids : List Nat) (f : Nat → String), (∀ i ∈ ids, i ≤ 999999) →
      walk (ids.map (fun i => (filename i, f i))) =
        (ids.insertionSort (· ≤ ·)).map (fun i => (filename i, f i)) ∧
      (ids.insertionSort (· ≤ ·)).Sorted (· ≤ ·)) := by
  refine ⟨?_, ?_, ?_⟩
  · intro n hn
    have h6 : n < 10 ^ 6 := by norm_num; omega
    refine ⟨rfl, ?_, ?_, decode_sprintf06d n⟩
    · rw [sprintf06d_of_lt n h6]; exact fixedDigits_length 6 n
    · rw [sprintf06d_of_lt n h6]; exact fixedDigits_all_isDigit 6 n
  · intro a b _ hab hb
    have hb6 : b < 10 ^ 6 := by norm_num; omega
    have ha6 : a < 10 ^ 6 := by omega
    rw [strLess_filename a b ha6 hb6, strLess_filename b a hb6 ha6]
    simp; omega
  · intro ids f h
    exact ⟨walk_filenames f ids (fun i hi => by have := h i hi; norm_num; omega),
      List.sorted_insertionSort _ _⟩

/-- Witness for C9 (amended): the ids 281 and 382, and a directory holding
the files of 382, 7 and 281. -/
theorem filename_order_witness :
    (filename 281 = "page-" ++ sprintf06d 281 ++ ".html" ∧ (sprintf06d 281).length = 6 ∧
      (sprintf06d 281).data.all Char.isDigit = true ∧ decodeDigits (sprintf06d 281).data = 281) ∧
    (strLess (filename 281) (filename 382) = true ∧
      strLess (filename 382) (filename 281) = false) ∧
    (walk ([382, 7, 281].map (fun i => (filename i, "x"))) =
        ([382, 7, 281].insertionSort (· ≤ ·)).map (fun i => (filename i, "x")) ∧
      ([382, 7, 281].insertionSort (· ≤ ·)).Sorted (· ≤ ·)) :=
  ⟨filename_order.1 281 (by decide),
   filename_order.2.1 281 382 (by decide) (by decide) (by decide),
   filename_order.2.2 [382, 7, 281] (fun _ => "x") (by decide)⟩

/-! ## C10: classification of a response -/

/-- C10, as the claim states it, fails: a response with status 200 whose
headers include a refresh header with the empty value is not recorded as a
soft 404.  Its body is written to the cache, the counter is reset from 5 to
0 and the loop sleeps. -/
theorem empty_refresh_is_real_page :
    ((emptyRefresh.get 1).Header.lookup "Refresh").isSome = true ∧
    (wrapFunc { maxID := 20000, force := false, maxSubsequentRefreshes := 100 } emptyRefresh
      { State.init [] with subsequentRefreshes := 5 }).cache = [(filename 1, "<h3>x</h3>")] ∧
    (wrapFunc { maxID := 20000, force := false, maxSubsequentRefreshes := 100 } emptyRefresh
      { State.init [] with subsequentRefreshes := 5 }).subsequentRefreshes = 0 ∧
    (wrapFunc { maxID := 20000, force := false, maxSubsequentRefreshes := 100 } emptyRefresh
      { State.init [] with subsequentRefreshes := 5 }).sleeps = 1 := by
  decide

/-- C10 (amended): for every response that is fetched with no transport
error and status below 400 (and whose body can be read and whose cache
write succeeds), the response is recorded as a soft 404 (sentinel of length
zero written, counter incremented, no sleep) if and only if
`Header.Get("refresh")` is not empty, that is, the headers include a
refresh header whose first value is not empty; otherwise the body is
written to the cache, the counter is reset to 0 and the loop sleeps. -/
theorem refresh_classification (cfg : Config) (w : World) (s : State) (b : String)
    (hf : s.fatal = false)
    (hc : ¬ (s.subsequentRefreshes : Int) > cfg.maxSubsequentRefreshes)
    (hn : s.cache.stat (filename (s.id + 1)) = none ∨
      (s.cache.stat (filename (s.id + 1)) = some 0 ∧ cfg.force = true))
    (herr : (w.get (s.id + 1)).err = false)
    (hstatus : (w.get (s.id + 1)).StatusCode < 400)
    (hbody : (w.get (s.id + 1)).Body = some b)
    (hwrite : w.writeFails (s.id + 1) = false) :
    ((w.get (s.id + 1)).Header.get "refresh" ≠ "" ↔
      ∃ v vs, (w.get (s.id + 1)).Header.lookup "Refresh" = some (v :: vs) ∧ v ≠ "") ∧
    ((w.get (s.id + 1)).Header.get "refresh" ≠ "" →
      (wrapFunc cfg w s).requests = s.requests ++ [s.id + 1] ∧
      (wrapFunc cfg w s).cache = WriteFileAtomic s.cache (filename (s.id + 1)) "" ∧
      (wrapFunc cfg w s).subsequentRefreshes = s.subsequentRefreshes + 1 ∧
      (wrapFunc cfg w s).sleeps = s.sleeps ∧
      (wrapFunc cfg w s).fatal = false) ∧
    ((w.get (s.id + 1)).Header.get "refresh" = "" →
      (wrapFunc cfg w s).requests = s.requests ++ [s.id + 1] ∧
      (wrapFunc cfg w s).cache = WriteFileAtomic s.cache (filename (s.id + 1)) b ∧
      (wrapFunc cfg w s).subsequentRefreshes = 0 ∧
      (wrapFunc cfg w s).sleeps = s.sleeps + 1 ∧
      (wrapFunc cfg w s).fatal = false) := by
  have hcl := wrapFunc_classify cfg w s b hf hc ((needsFetch_iff cfg s).2 hn) herr hstatus
    hbody hwrite
  refine ⟨header_get_refresh_ne _, fun hr => ?_, fun hr => ?_⟩
  · rw [hcl, if_pos hr]
    exact ⟨rfl, rfl, rfl, rfl, hf⟩
  · rw [hcl, if_neg (not_not.2 hr)]
    exact ⟨rfl, rfl, rfl, rfl, hf⟩

/-- Witness for C10 (amended): the first iteration on an empty cache against
the upstream of soft 404s. -/
theorem refresh_classification_witness :
    (allSoft404.get (0 + 1)).Header.get "refresh" ≠ "" ∧
    (wrapFunc { maxID := 20000, force := false, maxSubsequentRefreshes := 100 } allSoft404
      (State.init [])).cache = WriteFileAtomic [] (filename (0 + 1)) "" ∧
    (wrapFunc { maxID := 20000, force := false, maxSubsequentRefreshes := 100 } allSoft404
      (State.init [])).subsequentRefreshes = 0 + 1 :=
  have h := (refresh_classification
    { maxID := 20000, force := false, maxSubsequentRefreshes := 100 } allSoft404
    (State.init []) "" rfl (by decide) (Or.inl rfl) rfl (by decide) rfl rfl).2.1 (by decide)
  ⟨by decide, h.2.1, h.2.2.1⟩

end Pkpindex
